import Mathlib

/-!
Verification development for the meal-plan VPS worker.

The definitions below are a shallow embedding of the worker sources:
the calorie-map derivation and positional reconciliation of
`generateMealPlanWithAI`, the image enrichment of `fetchMealImages` and
`getMealImageUrl` (file `src/meal-plan-generator.ts`), and the polling,
claim and settlement logic of `JobProcessor` (the job-processor source
file).  External collaborators (clock, generative provider, image
search, artifact store) are passed in as explicit parameters or oracle
functions; JavaScript truthiness tests on numbers and strings are
rendered as explicit comparisons with `0` and `""`.
-/

namespace VpsWorker

/-- JavaScript `Math.round` applied to the exact rational `num / den`
for a positive denominator `den`: round half toward positive infinity,
computed as the floor of `(2 * num + den) / (2 * den)`. -/
def mathRound (num den : Int) : Int :=
  Int.fdiv (2 * num + den) (2 * den)

/-- One entry of `FoodPreferences.cheatDays` (types.ts): a date string
and a calorie override. -/
structure CheatDay where
  date : String
  calories : Int
deriving Repr, DecidableEq

/-- Lookup in the object built by `Object.fromEntries(cheatDays.map(cd
=> [cd.date, cd.calories]))`: later entries overwrite earlier ones, so
the last matching entry wins; `none` models an absent key. -/
def cheatLookup (cds : List CheatDay) (d : String) : Option Int :=
  (cds.reverse.find? (fun cd => cd.date == d)).map (fun cd => cd.calories)

/-- JavaScript `v || dflt` on an optional number `v`: both an absent
key and the number `0` are falsy and yield `dflt`. -/
def jsOrElse (v : Option Int) (dflt : Int) : Int :=
  match v with
  | none => dflt
  | some x => if x = 0 then dflt else x

/-- `normalDayCals` from `generateMealPlanWithAI` (meal-plan-generator.ts,
lines 191 to 196): with at least one normal day remaining, the rounded
quotient `Math.round((weekDates.length * goal - totalCheatCals) /
normalDays)`, otherwise the baseline goal. -/
def normalDayCals (weekLen : Nat) (cds : List CheatDay) (goal : Int) : Int :=
  if ((weekLen : Int) - (cds.length : Int)) > 0 then
    mathRound ((weekLen : Int) * goal - (cds.map (fun cd => cd.calories)).sum)
      ((weekLen : Int) - (cds.length : Int))
  else
    goal

/-- The derived calorie map `effectiveCaloriesPerDay`
(meal-plan-generator.ts, lines 184 to 207) as a function of the date:
with a non-empty cheat list, `cheatMap[dateStr] || normalDayCals`,
otherwise the baseline goal everywhere. -/
def effectiveCalories (weekLen : Nat) (cds : List CheatDay) (goal : Int)
    (d : String) : Int :=
  if cds.isEmpty then goal
  else jsOrElse (cheatLookup cds d) (normalDayCals weekLen cds goal)

/-- Sum of the effective calorie targets over the computed week dates. -/
def weekCalorieSum (weekDates : List String) (cds : List CheatDay)
    (goal : Int) : Int :=
  (weekDates.map (effectiveCalories weekDates.length cds goal)).sum

/-- Sum of the effective targets over the week dates that do not match
any cheat-day entry. -/
def nonCheatSum (weekDates : List String) (cds : List CheatDay)
    (goal : Int) : Int :=
  ((weekDates.filter (fun d => (cheatLookup cds d).isNone)).map
    (effectiveCalories weekDates.length cds goal)).sum

/-- Fallback image used when the meal type has no dedicated default
(meal-plan-generator.ts, line 491). -/
def genericFoodImage : String :=
  "https://images.unsplash.com/photo-1512621776951-a57141f2eefd?q=80&w=800&auto=format&fit=crop"

/-- The `defaultImagesByType` record of `getMealImageUrl`
(meal-plan-generator.ts, lines 492 to 497). -/
def defaultImagesByType (mealType : String) : Option String :=
  if mealType = "Breakfast" then
    some "https://images.unsplash.com/photo-1533089860892-a7c6f0a88666?q=80&w=800&auto=format&fit=crop"
  else if mealType = "Lunch" then
    some "https://images.unsplash.com/photo-1547496502-affa22d38842?q=80&w=800&auto=format&fit=crop"
  else if mealType = "Dinner" then
    some "https://images.unsplash.com/photo-1576402187878-974f70c890a5?q=80&w=800&auto=format&fit=crop"
  else if mealType = "Snack" then
    some "https://images.unsplash.com/photo-1482049016688-2d3e1b311543?q=80&w=800&auto=format&fit=crop"
  else none

/-- The external image-search collaborator: whether an access
credential is configured, and the search call as an oracle from the
query string to the list of candidate URL strings (the `urls.regular`
field of each result, with a missing field rendered as the falsy empty
string); `none` models a transport failure or a non-ok response. -/
structure ImageEnv where
  hasKey : Bool
  search : String → Option (List String)

/-- Shallow embedding of `getMealImageUrl` (meal-plan-generator.ts,
lines 490 to 535): with no credential, or on a failed or empty search,
the meal-type default; otherwise the first result not yet in the
per-job used set, which is then recorded. The used set is threaded
explicitly; in the source it is the module-level `usedImageUrls`. -/
def getMealImageUrl (env : ImageEnv) (mealName mealType : String)
    (aiKeywords : List String) (used : List String) : String × List String :=
  let fallback := (defaultImagesByType mealType).getD genericFoodImage
  if env.hasKey = false then
    (fallback, used)
  else
    let searchTerm :=
      match aiKeywords.head? with
      | some k =>
        if k = "" then String.intercalate " " ((mealName.splitOn " ").take 2)
        else k
      | none => String.intercalate " " ((mealName.splitOn " ").take 2)
    match env.search (searchTerm ++ " food dish") with
    | none => (fallback, used)
    | some results =>
      match results.find? (fun r => !(r == "") && !(used.contains r)) with
      | some r => (r, r :: used)
      | none => (fallback, used)

/-- A meal as it reaches visual enrichment: name, type and the
image-search keyword hints from the generated plan. -/
structure MealIn where
  name : String
  type : String
  keywords : List String
deriving Repr, DecidableEq

/-- A generated day as it reaches visual enrichment. -/
structure DayIn where
  isCheatDay : Bool
  meals : List MealIn
deriving Repr, DecidableEq

/-- One meal of `fetchMealImages` (meal-plan-generator.ts, lines 441
to 488): on a cheat day only the placeholder meal of type `Cheat Day`
is enriched, with a fixed celebratory query; on a normal day a meal is
enriched when its name and type are truthy. Returns the assigned URL
(or `none` when the meal is skipped) and the updated used set. -/
def enrichMeal (env : ImageEnv) (isCheat : Bool) (m : MealIn)
    (used : List String) : Option String × List String :=
  if isCheat then
    if m.type = "Cheat Day" then
      let r := getMealImageUrl env "Celebration feast gourmet" "Cheat Meal"
        ["celebration", "feast", "indulgent food"] used
      (some r.1, r.2)
    else (none, used)
  else
    if m.name ≠ "" ∧ m.type ≠ "" then
      let r := getMealImageUrl env m.name m.type m.keywords used
      (some r.1, r.2)
    else (none, used)

/-- Enrichment of the meals of one day, in order, threading the used
set; the first component lists the assigned image URLs in order. -/
def runMeals (env : ImageEnv) (isCheat : Bool) :
    List MealIn → List String → List String × List String
  | [], used => ([], used)
  | m :: ms, used =>
    let r := enrichMeal env isCheat m used
    let rest := runMeals env isCheat ms r.2
    (match r.1 with
     | some u => u :: rest.1
     | none => rest.1, rest.2)

/-- Shallow embedding of `fetchMealImages` over the generated days:
the list of all assigned image URLs in order, and the final used set. -/
def fetchMealImages (env : ImageEnv) :
    List DayIn → List String → List String × List String
  | [], used => ([], used)
  | d :: ds, used =>
    let r := runMeals env d.isCheatDay d.meals used
    let rest := fetchMealImages env ds r.2
    (r.1 ++ rest.1, rest.2)

/-- A generated day document as touched by the positional
reconciliation: the two overwritten fields plus an opaque remainder
standing for all other generated content. -/
structure DayDoc where
  date : String
  daily_calorie_target : Int
  rest : String
deriving Repr, DecidableEq

/-- The value found under the `days` key of the parsed provider
document: an array of day documents, or a value of some other type. -/
inductive DaysField
  | arr (days : List DayDoc)
  | notArray
deriving Repr, DecidableEq

/-- The parsed provider document; `days` is `none` when the key is
absent. Fields not touched by validation or reconciliation are
irrelevant here. -/
structure PlanDoc where
  days : Option DaysField
deriving Repr, DecidableEq

/-- The provider response as inspected by `generateMealPlanWithAI`
(meal-plan-generator.ts, lines 243 to 262): missing content, content
that fails JSON parsing (with the parser message), or a parsed
document. -/
inductive AIResponse
  | noContent
  | unparseable (msg : String)
  | parsed (doc : PlanDoc)
deriving Repr, DecidableEq

/-- The validation performed by `generateMealPlanWithAI`: each failure
yields the thrown error message; a document whose `days` value is an
array passes. -/
def parseAndValidate : AIResponse → Except String PlanDoc
  | .noContent => .error "OpenAI returned no content"
  | .unparseable msg => .error ("Failed to parse AI response: " ++ msg)
  | .parsed doc =>
    match doc.days with
    | some (.arr _) => .ok doc
    | _ => .error "Invalid AI response: missing days array"

/-- The error message produced for each invalid response shape. -/
def aiFailureMessage : AIResponse → String
  | .noContent => "OpenAI returned no content"
  | .unparseable msg => "Failed to parse AI response: " ++ msg
  | .parsed _ => "Invalid AI response: missing days array"

/-- A response is bad when it has no content, fails parsing, or its
`days` value is missing or not an array. -/
def badAIResponse : AIResponse → Prop
  | .noContent => True
  | .unparseable _ => True
  | .parsed doc => ∀ l, doc.days ≠ some (.arr l)

/-- Settlement outcome reported to the Job Source. -/
inductive JobOutcome
  | completed
  | failed (msg : String)
deriving Repr, DecidableEq

/-- Result of processing one job: the reported outcome and the list of
artifact identifiers against which an update of the meal-plans store
was attempted. -/
structure ProcessResult where
  outcome : JobOutcome
  writeAttempts : List String
deriving Repr, DecidableEq

/-- Shallow embedding of `JobProcessor.processJob` composed with
`processMealPlanJob` (job-processor source, lines 115 to 216): an
unrecognized kind fails without invoking the pipeline; a pipeline
error propagates to `markJobFailed` with its message, before any
artifact write is attempted; on pipeline success the artifact update
is attempted and a save error fails the job with the save message. -/
def processJobModel (jobType planId : String) (resp : AIResponse)
    (saveError : Option String) : ProcessResult :=
  if jobType ≠ "meal_plan_generation" then
    ⟨.failed ("Unknown job type: " ++ jobType), []⟩
  else
    match parseAndValidate resp with
    | .error e => ⟨.failed e, []⟩
    | .ok _ =>
      match saveError with
      | some m => ⟨.failed ("Failed to save meal plan: " ++ m), [planId]⟩
      | none => ⟨.completed, [planId]⟩

/-- One step of the positional reconciliation loop
(meal-plan-generator.ts, lines 265 to 274): with `weekDates[index]`
undefined the day is left unchanged; otherwise the date is always
overwritten and the calorie target is overwritten only when the
derived value is truthy (nonzero). -/
def reconcileDay (weekDates : List String) (effCal : String → Int)
    (i : Nat) (day : DayDoc) : DayDoc :=
  match weekDates.get? i with
  | some dateStr =>
    if effCal dateStr = 0 then { day with date := dateStr }
    else { day with date := dateStr, daily_calorie_target := effCal dateStr }
  | none => day

/-- The reconciliation loop from a given start index. -/
def postProcessFrom (weekDates : List String) (effCal : String → Int) :
    Nat → List DayDoc → List DayDoc
  | _, [] => []
  | i, day :: more =>
    reconcileDay weekDates effCal i day ::
      postProcessFrom weekDates effCal (i + 1) more

/-- The `aiGeneratedPlan.days.forEach` reconciliation over the whole
returned array. -/
def postProcessDays (weekDates : List String) (effCal : String → Int)
    (days : List DayDoc) : List DayDoc :=
  postProcessFrom weekDates effCal 0 days

theorem postProcessFrom_get? (weekDates : List String)
    (effCal : String → Int) :
    ∀ (days : List DayDoc) (j i : Nat) (d0 : DayDoc),
      days.get? i = some d0 →
      (postProcessFrom weekDates effCal j days).get? i =
        some (reconcileDay weekDates effCal (j + i) d0) := by
  intro days
  induction days with
  | nil =>
    intro j i d0 h
    simp at h
  | cons day more ih =>
    intro j i d0 h
    cases i with
    | zero =>
      simp only [List.get?_cons_zero, Option.some_inj] at h
      subst h
      simp [postProcessFrom]
    | succ n =>
      simp only [List.get?_cons_succ] at h
      simp only [postProcessFrom, List.get?_cons_succ]
      have harith : j + 1 + n = j + (n + 1) := by omega
      have hrec := ih (j + 1) n d0 h
      rw [harith] at hrec
      exact hrec

theorem getMealImageUrl_used_cases (env : ImageEnv)
    (mealName mealType : String) (kws used : List String) :
    (getMealImageUrl env mealName mealType kws used).2 = used ∨
    ((getMealImageUrl env mealName mealType kws used).2 =
        (getMealImageUrl env mealName mealType kws used).1 :: used ∧
      (getMealImageUrl env mealName mealType kws used).1 ∉ used) := by
  simp only [getMealImageUrl]
  split
  · exact Or.inl rfl
  · split
    · exact Or.inl rfl
    · split
      next r hf =>
        have hp := List.find?_some hf
        simp only [Bool.and_eq_true, Bool.not_eq_true'] at hp
        refine Or.inr ⟨rfl, ?_⟩
        intro hm
        have hc : used.contains r = true := List.elem_iff.2 hm
        rw [hp.2] at hc
        exact Bool.false_ne_true hc
      · exact Or.inl rfl

theorem enrichMeal_used_cases (env : ImageEnv) (isCheat : Bool)
    (m : MealIn) (used : List String) :
    (enrichMeal env isCheat m used).2 = used ∨
    (∃ u, (enrichMeal env isCheat m used).1 = some u ∧
      (enrichMeal env isCheat m used).2 = u :: used ∧ u ∉ used) := by
  unfold enrichMeal
  split
  · split
    · rcases getMealImageUrl_used_cases env "Celebration feast gourmet"
        "Cheat Meal" ["celebration", "feast", "indulgent food"] used with
        h | ⟨h1, h2⟩
      · exact Or.inl h
      · exact Or.inr ⟨_, rfl, h1, h2⟩
    · exact Or.inl rfl
  · split
    · rcases getMealImageUrl_used_cases env m.name m.type m.keywords used
        with h | ⟨h1, h2⟩
      · exact Or.inl h
      · exact Or.inr ⟨_, rfl, h1, h2⟩
    · exact Or.inl rfl

theorem runMeals_fresh (env : ImageEnv) (isCheat : Bool)
    (ms : List MealIn) :
    ∀ used : List String, ∃ fresh : List String,
      (runMeals env isCheat ms used).2 = fresh ++ used ∧
      (∀ u ∈ fresh, u ∈ (runMeals env isCheat ms used).1) ∧
      (used.Nodup → (fresh ++ used).Nodup) := by
  induction ms with
  | nil =>
    intro used
    exact ⟨[], rfl, by simp, by simp⟩
  | cons m ms ih =>
    intro used
    rcases enrichMeal_used_cases env isCheat m used with h | ⟨u, hsome, hused, hnot⟩
    · obtain ⟨fresh, h1, h2, h3⟩ := ih (enrichMeal env isCheat m used).2
      refine ⟨fresh, ?_, ?_, ?_⟩
      · simp only [runMeals]
        rw [h1, h]
      · intro v hv
        simp only [runMeals]
        cases he : (enrichMeal env isCheat m used).1 with
        | some w =>
          exact List.mem_cons_of_mem _ (h2 v hv)
        | none =>
          exact h2 v hv
      · intro hnd
        rw [h] at h1 h3
        exact h3 hnd
    · obtain ⟨fresh, h1, h2, h3⟩ := ih (u :: used)
      refine ⟨fresh ++ [u], ?_, ?_, ?_⟩
      · simp only [runMeals]
        rw [hused, h1, List.append_assoc, List.singleton_append]
      · intro v hv
        simp only [runMeals, hsome, hused]
        rcases List.mem_append.1 hv with hv1 | hv2
        · exact List.mem_cons_of_mem _ (h2 v hv1)
        · rw [List.mem_singleton.1 hv2]
          exact List.mem_cons_self _ _
      · intro hnd
        have hcons : (u :: used).Nodup := List.nodup_cons.2 ⟨hnot, hnd⟩
        have hall := h3 hcons
        simpa [List.append_assoc] using hall

theorem fetchMealImages_fresh (env : ImageEnv) (days : List DayIn) :
    ∀ used : List String, ∃ fresh : List String,
      (fetchMealImages env days used).2 = fresh ++ used ∧
      (∀ u ∈ fresh, u ∈ (fetchMealImages env days used).1) ∧
      (used.Nodup → (fresh ++ used).Nodup) := by
  induction days with
  | nil =>
    intro used
    exact ⟨[], rfl, by simp, by simp⟩
  | cons d ds ih =>
    intro used
    obtain ⟨fresh1, r1, r2, r3⟩ := runMeals_fresh env d.isCheatDay d.meals used
    obtain ⟨fresh2, s1, s2, s3⟩ := ih (runMeals env d.isCheatDay d.meals used).2
    refine ⟨fresh2 ++ fresh1, ?_, ?_, ?_⟩
    · simp only [fetchMealImages]
      rw [s1, r1, List.append_assoc]
    · intro v hv
      simp only [fetchMealImages]
      rcases List.mem_append.1 hv with hv1 | hv2
      · exact List.mem_append.2 (Or.inr (s2 v hv1))
      · exact List.mem_append.2 (Or.inl (r2 v hv2))
    · intro hnd
      have h1 : (fresh1 ++ used).Nodup := r3 hnd
      rw [r1] at s3
      have h2 : (fresh2 ++ (fresh1 ++ used)).Nodup := s3 h1
      simpa [List.append_assoc] using h2

/-- State of the polling scheduler of `JobProcessor.start`
(job-processor source, lines 41 to 89): the keys of the `activeJobs`
map, plus a flag recording that the size check has passed and the
claim RPC is still awaited (the suspension between the check and
`activeJobs.set`). -/
structure SchedState where
  active : List String
  pending : Bool
deriving Repr, DecidableEq

/-- Transitions of the scheduler on one worker instance. A claim
attempt starts only when the size check passes and no claim is in
flight (the loop is sequential); it either dispatches the claimed job,
registering it in the slot map before polling resumes, or finds no
work; a settled execution is removed by its `finally` handler
regardless of outcome, and settlements may interleave with an
in-flight claim. A dispatched job is fresh because the Job Source
claim is exclusive. -/
inductive SchedStep (L : Nat) : SchedState → SchedState → Prop
  | claimStart (s : SchedState) (h : s.active.length < L)
      (hp : s.pending = false) :
      SchedStep L s ⟨s.active, true⟩
  | claimNone (s : SchedState) (hp : s.pending = true) :
      SchedStep L s ⟨s.active, false⟩
  | dispatch (s : SchedState) (j : String) (hp : s.pending = true)
      (hj : j ∉ s.active) :
      SchedStep L s ⟨j :: s.active, false⟩
  | settle (s : SchedState) (j : String) (hj : j ∈ s.active) :
      SchedStep L s ⟨s.active.erase j, s.pending⟩

/-- States reachable from the initial empty scheduler state. -/
inductive SchedReachable (L : Nat) : SchedState → Prop
  | init : SchedReachable L ⟨[], false⟩
  | step {s t : SchedState} : SchedReachable L s → SchedStep L s t →
      SchedReachable L t

theorem sched_invariant {L : Nat} {s : SchedState}
    (h : SchedReachable L s) :
    s.active.length + (if s.pending then 1 else 0) ≤ L := by
  induction h with
  | init => simp
  | step hr hs ih =>
    rename_i s t
    cases hs with
    | claimStart h hp =>
      simp [hp] at ih
      simp
      omega
    | claimNone hp =>
      simp [hp] at ih
      simp
      omega
    | dispatch j hp hj =>
      simp [hp] at ih
      simp
      omega
    | settle j hj =>
      have hle : (s.active.erase j).length ≤ s.active.length :=
        (List.erase_sublist j s.active).length_le
      by_cases hb : s.pending = true <;> simp [hb] at ih ⊢ <;> omega

/-- C6: for every concurrency limit of at least 1, every reachable
scheduler state keeps the in-flight slot map within the limit; a slot
is added by the dispatch transition before polling resumes and removed
by the settle transition regardless of outcome. -/
theorem scheduler_active_le_limit (L : Nat) (hL : 1 ≤ L)
    (s : SchedState) (h : SchedReachable L s) : s.active.length ≤ L := by
  have hinv := sched_invariant h
  by_cases hb : s.pending = true <;> simp [hb] at hinv <;> omega

/-- Witness for the C6 theorem: with limit 1, the state reached by one
full claim and dispatch holds one slot, within the limit. -/
theorem scheduler_active_le_limit_witness :
    (1 ≤ 1 ∧ SchedReachable 1 ⟨["job-1"], false⟩) ∧
    (SchedState.active ⟨["job-1"], false⟩).length ≤ 1 := by
  have h1 : SchedReachable 1 ⟨[], false⟩ := SchedReachable.init
  have h2 : SchedReachable 1 ⟨[], true⟩ :=
    SchedReachable.step h1
      (SchedStep.claimStart ⟨[], false⟩ (by decide) rfl)
  have hreach : SchedReachable 1 ⟨["job-1"], false⟩ :=
    SchedReachable.step h2
      (SchedStep.dispatch ⟨[], true⟩ "job-1" rfl (by decide))
  exact ⟨⟨le_refl 1, hreach⟩,
    scheduler_active_le_limit 1 (le_refl 1) ⟨["job-1"], false⟩ hreach⟩

/-- Outcome of one claim RPC against the Job Source as seen inside
`JobProcessor.getNextJob` (job-processor source, lines 91 to 113): a
claimed job row, an empty result, an error field on the response, or a
thrown transport or timeout exception. -/
inductive ClaimOutcome
  | job (j : String)
  | empty
  | rpcError (e : String)
  | exn (e : String)
deriving Repr, DecidableEq

/-- Shallow embedding of `getNextJob`: the error-field case and the
thrown-exception case are both caught inside the method (after
logging) and yield `null`, indistinguishable from an empty claim. -/
def getNextJob : ClaimOutcome → Option String
  | .job j => some j
  | .empty => none
  | .rpcError _ => none
  | .exn _ => none

/-- Result of one iteration of the polling loop of
`JobProcessor.start`: the job dispatched this cycle, the wait before
the next cycle in milliseconds, and whether the loop continues. -/
structure IterResult where
  dispatched : Option String
  waitMs : Nat
  loopContinues : Bool
deriving Repr, DecidableEq

/-- One iteration of the polling loop (job-processor source, lines 41
to 86): when capacity remains, the claim result (already `null` on a
claim failure) decides the dispatch, and the loop always sleeps the
configured poll interval; the catch arm with its fixed 5000 ms wait is
unreachable from a claim failure because `getNextJob` never throws. -/
def loopIteration (pollIntervalMs activeCount maxConcurrent : Nat)
    (claim : ClaimOutcome) : IterResult :=
  if activeCount < maxConcurrent then
    ⟨getNextJob claim, pollIntervalMs, true⟩
  else
    ⟨none, pollIntervalMs, true⟩

/-- C7: a failed claim does not back off for five poll intervals. At
the default poll interval of 1000 ms, a transport error on the claim
attempt leaves the next wait at the normal 1000 ms, not 5000 ms. -/
theorem claim_failure_backoff_counterexample :
    (loopIteration 1000 0 3 (.rpcError "fetch timeout")).waitMs = 1000 ∧
    (loopIteration 1000 0 3 (.rpcError "fetch timeout")).waitMs ≠
      5 * 1000 := by
  refine ⟨by decide, by decide⟩

/-- C7 (amended): a claim failure (error response, or thrown transport
or timeout exception) is logged inside the claim method and treated as
no work this cycle: nothing is dispatched, the loop waits the normal
configured poll interval (not five times it: the fixed 5000 ms catch
arm is unreachable for claim failures) and the loop continues, so a
claim failure never terminates the scheduling loop. -/
theorem claim_failure_nonfatal_normal_wait
    (pollIntervalMs activeCount maxConcurrent : Nat)
    (claim : ClaimOutcome)
    (hfail : (∃ e, claim = .rpcError e) ∨ (∃ e, claim = .exn e)) :
    loopIteration pollIntervalMs activeCount maxConcurrent claim =
      ⟨none, pollIntervalMs, true⟩ := by
  have hnone : getNextJob claim = none := by
    rcases hfail with ⟨e, rfl⟩ | ⟨e, rfl⟩ <;> rfl
  unfold loopIteration
  split <;> simp [hnone]

/-- Witness for the amended C7 theorem on one concrete failed cycle. -/
theorem claim_failure_nonfatal_normal_wait_witness :
    ((∃ e, ClaimOutcome.rpcError "fetch timeout" =
        ClaimOutcome.rpcError e) ∨
      (∃ e, ClaimOutcome.rpcError "fetch timeout" = ClaimOutcome.exn e)) ∧
    loopIteration 1000 0 3 (.rpcError "fetch timeout") =
      ⟨none, 1000, true⟩ :=
  ⟨Or.inl ⟨"fetch timeout", rfl⟩,
    claim_failure_nonfatal_normal_wait 1000 0 3
      (.rpcError "fetch timeout") (Or.inl ⟨"fetch timeout", rfl⟩)⟩

theorem cheatLookup_eq_none_iff (cds : List CheatDay) (d : String) :
    cheatLookup cds d = none ↔ ∀ cd ∈ cds, cd.date ≠ d := by
  simp [cheatLookup, List.find?_eq_none]

theorem cheatLookup_none_iff_not_mem (cds : List CheatDay) (d : String) :
    cheatLookup cds d = none ↔ d ∉ cds.map (fun cd => cd.date) := by
  rw [cheatLookup_eq_none_iff]
  constructor
  · intro h hmem
    obtain ⟨cd, hcd, heq⟩ := List.mem_map.1 hmem
    exact h cd hcd heq
  · intro h cd hcd heq
    exact h (List.mem_map.2 ⟨cd, hcd, heq⟩)

theorem effectiveCalories_of_none (weekLen : Nat) (cds : List CheatDay)
    (goal : Int) (d : String) (hne : cds ≠ [])
    (hnone : cheatLookup cds d = none) :
    effectiveCalories weekLen cds goal d = normalDayCals weekLen cds goal := by
  simp only [effectiveCalories, hnone, jsOrElse]
  rw [if_neg (by simpa [List.isEmpty_iff] using hne)]

theorem normalDayCals_eq (weekLen : Nat) (cds : List CheatDay) (goal : Int)
    (h : (cds.length : Int) < (weekLen : Int)) :
    normalDayCals weekLen cds goal =
      mathRound ((weekLen : Int) * goal -
        (cds.map (fun cd => cd.calories)).sum)
        ((weekLen : Int) - (cds.length : Int)) := by
  unfold normalDayCals
  rw [if_pos (by omega)]

/-- Bound for the rounded quotient: multiplying the JavaScript rounding
of `A / n` back by the positive denominator `n` stays within `n` of
`A` (in fact within `n / 2`). -/
theorem mathRound_mul_sub_abs_le (A n : Int) (hn : 0 < n) :
    |n * mathRound A n - A| ≤ n := by
  have h2n : (0 : Int) < 2 * n := by linarith
  unfold mathRound
  rw [Int.fdiv_eq_ediv _ (le_of_lt h2n)]
  have hdm := Int.ediv_add_emod (2 * A + n) (2 * n)
  have hm0 := Int.emod_nonneg (2 * A + n) (by omega : (2 * n) ≠ 0)
  have hml := Int.emod_lt_of_pos (2 * A + n) h2n
  rw [abs_le]
  constructor <;> nlinarith [hdm, hm0, hml]

theorem length_filter_add_length_filter_not {α : Type} (l : List α)
    (p : α → Bool) :
    (l.filter p).length + (l.filter (fun a => !p a)).length = l.length := by
  induction l with
  | nil => simp
  | cons a t ih =>
    cases h : p a <;> simp [List.filter_cons, h] <;> omega

theorem length_filter_mem {l s : List String} (hl : l.Nodup) (hs : s.Nodup)
    (hsub : ∀ x ∈ s, x ∈ l) :
    (l.filter (fun d => decide (d ∈ s))).length = s.length := by
  have hperm : (l.filter (fun d => decide (d ∈ s))).Perm s := by
    rw [List.perm_ext_iff_of_nodup (hl.filter _) hs]
    intro a
    simp only [List.mem_filter, decide_eq_true_eq]
    exact ⟨fun h => h.2, fun h => ⟨hsub a h, h⟩⟩
  exact hperm.length_eq

theorem nonCheat_filter_length (weekDates : List String)
    (cds : List CheatDay) (hw : weekDates.Nodup)
    (hcd : (cds.map (fun cd => cd.date)).Nodup)
    (hsub : ∀ cd ∈ cds, cd.date ∈ weekDates) :
    (weekDates.filter (fun d => (cheatLookup cds d).isNone)).length =
      weekDates.length - cds.length := by
  have hcongr : weekDates.filter (fun d => (cheatLookup cds d).isNone) =
      weekDates.filter
        (fun d => !decide (d ∈ cds.map (fun cd => cd.date))) := by
    apply List.filter_congr
    intro d _
    by_cases h : d ∈ cds.map (fun cd => cd.date)
    · have hno : cheatLookup cds d ≠ none := fun hc =>
        ((cheatLookup_none_iff_not_mem cds d).1 hc) h
      cases hcl : cheatLookup cds d with
      | none => exact absurd hcl hno
      | some v => simp [h]
    · have hcl : cheatLookup cds d = none :=
        (cheatLookup_none_iff_not_mem cds d).2 h
      simp [hcl, h]
  have hmemlen : (weekDates.filter
      (fun d => decide (d ∈ cds.map (fun cd => cd.date)))).length =
      cds.length := by
    rw [length_filter_mem hw hcd
      (by intro x hx
          obtain ⟨cd, hcd2, rfl⟩ := List.mem_map.1 hx
          exact hsub cd hcd2)]
    exact List.length_map _ _
  have htot := length_filter_add_length_filter_not weekDates
    (fun d => decide (d ∈ cds.map (fun cd => cd.date)))
  rw [hcongr]
  omega

theorem nonCheatSum_eq (weekDates : List String) (cds : List CheatDay)
    (goal : Int) (hne : cds ≠ []) :
    nonCheatSum weekDates cds goal =
      ((weekDates.filter (fun d => (cheatLookup cds d).isNone)).length : Int) *
        normalDayCals weekDates.length cds goal := by
  unfold nonCheatSum
  have hconst : ∀ b ∈ (weekDates.filter
      (fun d => (cheatLookup cds d).isNone)).map
      (effectiveCalories weekDates.length cds goal),
      b = normalDayCals weekDates.length cds goal := by
    intro b hb
    obtain ⟨d, hd, rfl⟩ := List.mem_map.1 hb
    have hdn := (List.mem_filter.1 hd).2
    exact effectiveCalories_of_none _ _ _ _ hne
      (Option.isNone_iff_eq_none.1 hdn)
  rw [List.eq_replicate_of_mem hconst, List.sum_replicate, List.length_map,
    nsmul_eq_mul]

/-- C2: the weekly balance property fails as universally stated. With
a cheat-day entry whose date lies outside the seven computed dates,
the divisor still counts it, every computed date receives the reduced
normal-day value, and the non-cheat total plus the literal cheat total
misses `7 * goal` by 1831, far beyond one unit per non-cheat day. -/
theorem weekSum_outside_week_counterexample :
    ¬(|nonCheatSum
          ["2026-10-11", "2026-10-12", "2026-10-13", "2026-10-14",
            "2026-10-15", "2026-10-16", "2026-10-17"]
          [⟨"1900-01-01", 3000⟩] 2000 +
        (([⟨"1900-01-01", 3000⟩] : List CheatDay).map
          (fun cd => cd.calories)).sum - 7 * 2000| ≤
      ((["2026-10-11", "2026-10-12", "2026-10-13", "2026-10-14",
          "2026-10-15", "2026-10-16", "2026-10-17"].filter
          (fun d => (cheatLookup [⟨"1900-01-01", 3000⟩] d).isNone)).length :
        Int)) := by
  decide

/-- C2 (amended): with no cheat days the week total is exactly
`7 * goal`; with a non-empty cheat list whose dates are distinct, all
lie among the seven computed dates, and leave at least one non-cheat
day, the non-cheat total plus the literal cheat total equals `7 * goal`
within one unit per non-cheat day. Cheat entries with duplicate or
out-of-week dates break the balance (see the counterexample). -/
theorem weekSum_bound_amended (weekDates : List String)
    (cds : List CheatDay) (goal : Int) (h7 : weekDates.length = 7)
    (hw : weekDates.Nodup) :
    (cds = [] → weekCalorieSum weekDates cds goal = 7 * goal) ∧
    (cds ≠ [] → (cds.map (fun cd => cd.date)).Nodup →
      (∀ cd ∈ cds, cd.date ∈ weekDates) → cds.length < 7 →
      |nonCheatSum weekDates cds goal +
          (cds.map (fun cd => cd.calories)).sum - 7 * goal| ≤
        7 - (cds.length : Int)) := by
  constructor
  · intro h
    subst h
    unfold weekCalorieSum
    have hconst : ∀ b ∈ weekDates.map
        (effectiveCalories weekDates.length [] goal), b = goal := by
      intro b hb
      obtain ⟨d, _, rfl⟩ := List.mem_map.1 hb
      simp [effectiveCalories]
    rw [List.eq_replicate_of_mem hconst, List.sum_replicate,
      List.length_map, h7, nsmul_eq_mul]
    norm_num
  · intro hne hnodup hsub hlt
    have hlen := nonCheat_filter_length weekDates cds hw hnodup hsub
    rw [h7] at hlen
    have hsum := nonCheatSum_eq weekDates cds goal hne
    have hkc : ((cds.length : Nat) : Int) < ((weekDates.length : Nat) : Int) := by
      rw [h7]
      exact_mod_cast hlt
    have hcals := normalDayCals_eq weekDates.length cds goal hkc
    rw [h7] at hcals
    have hn : (0 : Int) < 7 - (cds.length : Int) := by
      have : (cds.length : Int) < 7 := by exact_mod_cast hlt
      omega
    have hbound := mathRound_mul_sub_abs_le
      (7 * goal - (cds.map (fun cd => cd.calories)).sum)
      (7 - (cds.length : Int)) hn
    have hcast : (((7 : Nat) - cds.length : Nat) : Int) =
        7 - (cds.length : Int) := by
      omega
    rw [hsum, h7, hlen, hcast, hcals]
    have hring : (7 - (cds.length : Int)) *
          mathRound (((7 : Nat) : Int) * goal -
            (cds.map (fun cd => cd.calories)).sum)
            (((7 : Nat) : Int) - (cds.length : Int)) +
          (cds.map (fun cd => cd.calories)).sum - 7 * goal =
        (7 - (cds.length : Int)) *
          mathRound (7 * goal - (cds.map (fun cd => cd.calories)).sum)
            (7 - (cds.length : Int)) -
          (7 * goal - (cds.map (fun cd => cd.calories)).sum) := by
      norm_num
      ring
    rw [hring]
    exact hbound

/-- Witness for the amended C2 theorem: goal 2000, one cheat day at
3000 within a concrete seven-date week; the six normal days carry 1833
each and the balance misses 14000 by 2, within the allowed 6. -/
theorem weekSum_bound_amended_witness :
    ((["2026-10-11", "2026-10-12", "2026-10-13", "2026-10-14",
        "2026-10-15", "2026-10-16", "2026-10-17"] : List String).length = 7 ∧
      (["2026-10-11", "2026-10-12", "2026-10-13", "2026-10-14",
        "2026-10-15", "2026-10-16", "2026-10-17"] : List String).Nodup ∧
      ([⟨"2026-10-12", 3000⟩] : List CheatDay) ≠ [] ∧
      (([⟨"2026-10-12", 3000⟩] : List CheatDay).map
        (fun cd => cd.date)).Nodup ∧
      (∀ cd ∈ ([⟨"2026-10-12", 3000⟩] : List CheatDay),
        cd.date ∈ ["2026-10-11", "2026-10-12", "2026-10-13", "2026-10-14",
          "2026-10-15", "2026-10-16", "2026-10-17"]) ∧
      ([⟨"2026-10-12", 3000⟩] : List CheatDay).length < 7) ∧
    |nonCheatSum
        ["2026-10-11", "2026-10-12", "2026-10-13", "2026-10-14",
          "2026-10-15", "2026-10-16", "2026-10-17"]
        [⟨"2026-10-12", 3000⟩] 2000 +
      (([⟨"2026-10-12", 3000⟩] : List CheatDay).map
        (fun cd => cd.calories)).sum - 7 * 2000| ≤
      7 - (([⟨"2026-10-12", 3000⟩] : List CheatDay).length : Int) := by
  refine ⟨⟨by decide, by decide, by decide, by decide, by decide, by decide⟩, ?_⟩
  exact (weekSum_bound_amended
    ["2026-10-11", "2026-10-12", "2026-10-13", "2026-10-14",
      "2026-10-15", "2026-10-16", "2026-10-17"]
    [⟨"2026-10-12", 3000⟩] 2000 (by decide) (by decide)).2
    (by decide) (by decide) (by decide) (by decide)

/-- C3: a single pipeline run can assign the same image URL to two
meals. With no search credential (or any per-meal fallback), two meals
of the same type both receive the fixed Breakfast default, so the list
of assigned URLs has a duplicate. -/
theorem images_fallback_duplicate_counterexample :
    ¬((fetchMealImages ⟨false, fun _ => none⟩
        [⟨false, [⟨"Oatmeal", "Breakfast", []⟩,
          ⟨"Pancakes", "Breakfast", []⟩]⟩] []).1).Nodup := by
  decide

/-- C3 (amended): within one pipeline run the per-job used-image set
never acquires a duplicate: the URLs drawn fresh from search results
(exactly the entries the run adds to the used set) are pairwise
distinct and each is among the assigned images, so no two meals in the
same plan share a search-drawn image. Images from the degrade or
fallback path are fixed meal-type defaults, are not recorded in the
set, and may repeat (see the counterexample). -/
theorem images_fresh_nodup_amended (env : ImageEnv) (days : List DayIn)
    (used : List String) (h : used.Nodup) :
    ∃ fresh : List String,
      (fetchMealImages env days used).2 = fresh ++ used ∧
      (fresh ++ used).Nodup ∧
      ∀ u ∈ fresh, u ∈ (fetchMealImages env days used).1 := by
  obtain ⟨fresh, h1, h2, h3⟩ := fetchMealImages_fresh env days used
  exact ⟨fresh, h1, h3 h, h2⟩

/-- Witness for the amended C3 theorem: a run over one day with two
meals under a concrete search oracle, starting from the empty used
set. -/
theorem images_fresh_nodup_amended_witness :
    ([] : List String).Nodup ∧
    (∃ fresh : List String,
      (fetchMealImages
        ⟨true, fun q => if q = "oats food dish" then some ["u1"] else none⟩
        [⟨false, [⟨"Oatmeal", "Breakfast", ["oats"]⟩,
          ⟨"Porridge", "Breakfast", ["oats"]⟩]⟩] []).2 = fresh ++ [] ∧
      (fresh ++ ([] : List String)).Nodup ∧
      ∀ u ∈ fresh, u ∈ (fetchMealImages
        ⟨true, fun q => if q = "oats food dish" then some ["u1"] else none⟩
        [⟨false, [⟨"Oatmeal", "Breakfast", ["oats"]⟩,
          ⟨"Porridge", "Breakfast", ["oats"]⟩]⟩] []).1) := by
  exact ⟨List.nodup_nil,
    images_fresh_nodup_amended
      ⟨true, fun q => if q = "oats food dish" then some ["u1"] else none⟩
      [⟨false, [⟨"Oatmeal", "Breakfast", ["oats"]⟩,
        ⟨"Porridge", "Breakfast", ["oats"]⟩]⟩] [] List.nodup_nil⟩

/-- C4: the used-image set in the source is one module-level value
shared by every job in the process, cleared at each job start, so
concurrent jobs observe each other's entries. Interleaving two jobs
over the shared set (both clears first, then job A assigns, then job
B queries): the URL recorded by job A suppresses the same search
result for job B, which falls back to the meal-type default, whereas
a set scoped to job B alone would let job B receive that URL. -/
theorem usedImages_global_cross_job_interference :
    (getMealImageUrl
        ⟨true, fun q => if q = "oats food dish" then some ["u1"] else none⟩
        "Porridge" "Breakfast" ["oats"]
        (getMealImageUrl
          ⟨true, fun q => if q = "oats food dish" then some ["u1"] else none⟩
          "Oatmeal" "Breakfast" ["oats"] []).2).1 ≠
      (getMealImageUrl
        ⟨true, fun q => if q = "oats food dish" then some ["u1"] else none⟩
        "Porridge" "Breakfast" ["oats"] []).1 := by
  decide

/-- C8: with no image-search credential configured, every enriched
meal receives the fixed default image keyed to its meal type (with the
generic default for any other type, including the cheat-day
placeholder), the used set is unchanged, and the run never consults
the search oracle: the outcome is identical for every oracle. -/
theorem no_key_all_defaults_no_search (env : ImageEnv)
    (hk : env.hasKey = false) (days : List DayIn) (used : List String) :
    fetchMealImages env days used =
      (days.flatMap (fun d =>
        if d.isCheatDay then
          d.meals.filterMap (fun m =>
            if m.type = "Cheat Day" then some genericFoodImage else none)
        else
          d.meals.filterMap (fun m =>
            if m.name ≠ "" ∧ m.type ≠ "" then
              some ((defaultImagesByType m.type).getD genericFoodImage)
            else none)), used) ∧
    ∀ s1 s2 : String → Option (List String),
      fetchMealImages ⟨false, s1⟩ days used =
        fetchMealImages ⟨false, s2⟩ days used := by
  have hmeal : ∀ (e : ImageEnv), e.hasKey = false → ∀ (b : Bool) (m : MealIn)
      (us : List String),
      enrichMeal e b m us =
        ((if b then
            (if m.type = "Cheat Day" then some genericFoodImage else none)
          else
            (if m.name ≠ "" ∧ m.type ≠ "" then
              some ((defaultImagesByType m.type).getD genericFoodImage)
            else none)), us) := by
    intro e he b m us
    unfold enrichMeal getMealImageUrl
    cases b <;> simp [he] <;> split <;>
      simp [defaultImagesByType, genericFoodImage]
  have hrun : ∀ (e : ImageEnv), e.hasKey = false → ∀ (b : Bool)
      (ms : List MealIn) (us : List String),
      runMeals e b ms us =
        (ms.filterMap (fun m =>
          if b then
            (if m.type = "Cheat Day" then some genericFoodImage else none)
          else
            (if m.name ≠ "" ∧ m.type ≠ "" then
              some ((defaultImagesByType m.type).getD genericFoodImage)
            else none)), us) := by
    intro e he b ms
    induction ms with
    | nil => intro us; rfl
    | cons m ms ih =>
      intro us
      simp only [runMeals, hmeal e he b m us, ih us, List.filterMap_cons]
      cases hc : (if b then
          (if m.type = "Cheat Day" then some genericFoodImage else none)
        else
          (if m.name ≠ "" ∧ m.type ≠ "" then
            some ((defaultImagesByType m.type).getD genericFoodImage)
          else none)) with
      | some v => simp
      | none => simp
  have hfetch : ∀ (e : ImageEnv), e.hasKey = false → ∀ (ds : List DayIn)
      (us : List String),
      fetchMealImages e ds us =
        (ds.flatMap (fun d =>
          if d.isCheatDay then
            d.meals.filterMap (fun m =>
              if m.type = "Cheat Day" then some genericFoodImage else none)
          else
            d.meals.filterMap (fun m =>
              if m.name ≠ "" ∧ m.type ≠ "" then
                some ((defaultImagesByType m.type).getD genericFoodImage)
              else none)), us) := by
    intro e he ds
    induction ds with
    | nil => intro us; rfl
    | cons d ds ih =>
      intro us
      simp only [fetchMealImages, hrun e he d.isCheatDay d.meals us, ih us,
        List.flatMap_cons]
      cases hcd : d.isCheatDay <;> simp
  refine ⟨hfetch env hk days used, ?_⟩
  intro s1 s2
  rw [hfetch ⟨false, s1⟩ rfl days used, hfetch ⟨false, s2⟩ rfl days used]

/-- Witness for the C8 theorem: a concrete environment with no
credential over one normal day and one cheat day. -/
theorem no_key_all_defaults_no_search_witness :
    (ImageEnv.hasKey ⟨false, fun _ => some ["x1", "x2"]⟩ = false) ∧
    (fetchMealImages ⟨false, fun _ => some ["x1", "x2"]⟩
        [⟨false, [⟨"Oatmeal", "Breakfast", ["oats"]⟩]⟩,
          ⟨true, [⟨"Feast", "Cheat Day", []⟩]⟩] [] =
      (([⟨false, [⟨"Oatmeal", "Breakfast", ["oats"]⟩]⟩,
          ⟨true, [⟨"Feast", "Cheat Day", []⟩]⟩] : List DayIn).flatMap
        (fun d =>
          if d.isCheatDay then
            d.meals.filterMap (fun m =>
              if m.type = "Cheat Day" then some genericFoodImage else none)
          else
            d.meals.filterMap (fun m =>
              if m.name ≠ "" ∧ m.type ≠ "" then
                some ((defaultImagesByType m.type).getD genericFoodImage)
              else none)), []) ∧
      ∀ s1 s2 : String → Option (List String),
        fetchMealImages ⟨false, s1⟩
            [⟨false, [⟨"Oatmeal", "Breakfast", ["oats"]⟩]⟩,
              ⟨true, [⟨"Feast", "Cheat Day", []⟩]⟩] [] =
          fetchMealImages ⟨false, s2⟩
            [⟨false, [⟨"Oatmeal", "Breakfast", ["oats"]⟩]⟩,
              ⟨true, [⟨"Feast", "Cheat Day", []⟩]⟩] []) := by
  exact ⟨rfl, no_key_all_defaults_no_search
    ⟨false, fun _ => some ["x1", "x2"]⟩ rfl
    [⟨false, [⟨"Oatmeal", "Breakfast", ["oats"]⟩]⟩,
      ⟨true, [⟨"Feast", "Cheat Day", []⟩]⟩] []⟩

/-- C5: an absent, unparseable, or days-less provider response aborts
the job with no retry: validation yields the identifying error
message, the job settles as failed with that message, and no artifact
write against the target identifier is attempted, whatever the
artifact store would have answered. -/
theorem invalid_ai_response_fails_without_write (planId : String)
    (resp : AIResponse) (saveError : Option String)
    (hbad : badAIResponse resp) :
    parseAndValidate resp = .error (aiFailureMessage resp) ∧
    processJobModel "meal_plan_generation" planId resp saveError =
      ⟨.failed (aiFailureMessage resp), []⟩ := by
  have hval : parseAndValidate resp = .error (aiFailureMessage resp) := by
    cases resp with
    | noContent => rfl
    | unparseable msg => rfl
    | parsed doc =>
      cases hdays : doc.days with
      | none => simp [parseAndValidate, aiFailureMessage, hdays]
      | some df =>
        cases df with
        | arr l => exact absurd hdays (hbad l)
        | notArray => simp [parseAndValidate, aiFailureMessage, hdays]
  refine ⟨hval, ?_⟩
  simp [processJobModel, hval]

/-- Witness for the C5 theorem: a parsed document with no `days` key
settles the job as failed with the identifying message and attempts no
write. -/
theorem invalid_ai_response_fails_without_write_witness :
    badAIResponse (.parsed ⟨none⟩) ∧
    (parseAndValidate (.parsed ⟨none⟩) =
        .error (aiFailureMessage (.parsed ⟨none⟩)) ∧
      processJobModel "meal_plan_generation" "plan-1" (.parsed ⟨none⟩)
          none =
        ⟨.failed (aiFailureMessage (.parsed ⟨none⟩)), []⟩) :=
  ⟨fun _ h => Option.noConfusion h,
    invalid_ai_response_fails_without_write "plan-1" (.parsed ⟨none⟩) none
      (fun _ h => Option.noConfusion h)⟩

/-- C9: the reconciliation does not always overwrite the calorie
target. With baseline goal 2000 and a single cheat day at 14000, the
derived normal-day value is 0, which the truthiness guard drops: the
generated target 500 survives at index 1 even though the derived map
holds 0 for that date; the date itself is still overwritten. -/
theorem reconcile_zero_target_counterexample :
    effectiveCalories 7 [⟨"2026-10-11", 14000⟩] 2000 "2026-10-12" = 0 ∧
    (postProcessDays
        ["2026-10-11", "2026-10-12", "2026-10-13", "2026-10-14",
          "2026-10-15", "2026-10-16", "2026-10-17"]
        (effectiveCalories 7 [⟨"2026-10-11", 14000⟩] 2000)
        [⟨"gen-a", 999, "ra"⟩, ⟨"gen-b", 500, "rb"⟩]).get? 1 =
      some ⟨"2026-10-12", 500, "rb"⟩ ∧
    (500 : Int) ≠
      effectiveCalories 7 [⟨"2026-10-11", 14000⟩] 2000 "2026-10-12" := by
  refine ⟨by decide, by decide, by decide⟩

/-- C9 (amended): for every array position with both a returned day
and a computed date, the output day carries the computed date at that
position and, when the derived value for that date is nonzero, the
derived calorie target; a derived value of zero leaves the generated
target in place while the date is still overwritten. The match is
purely positional: the output never consults the generated date, and
all other generated content is preserved. -/
theorem reconcile_positional_overwrite_amended (weekDates : List String)
    (effCal : String → Int) (days : List DayDoc) (i : Nat) (d0 : DayDoc)
    (ds : String) (h1 : days.get? i = some d0)
    (h2 : weekDates.get? i = some ds) :
    (postProcessDays weekDates effCal days).get? i =
      some { date := ds,
             daily_calorie_target :=
               if effCal ds = 0 then d0.daily_calorie_target
               else effCal ds,
             rest := d0.rest } := by
  have h := postProcessFrom_get? weekDates effCal days 0 i d0 h1
  rw [Nat.zero_add] at h
  rw [postProcessDays, h]
  simp only [reconcileDay, h2]
  by_cases hc : effCal ds = 0 <;> simp [hc]

/-- Witness for the amended C9 theorem at one concrete day and date. -/
theorem reconcile_positional_overwrite_amended_witness :
    (([⟨"gen-a", 999, "ra"⟩] : List DayDoc).get? 0 =
        some ⟨"gen-a", 999, "ra"⟩ ∧
      (["2026-10-11"] : List String).get? 0 = some "2026-10-11") ∧
    (postProcessDays ["2026-10-11"] (fun _ => (1800 : Int))
        [⟨"gen-a", 999, "ra"⟩]).get? 0 =
      some ⟨"2026-10-11", 1800, "ra"⟩ := by
  refine ⟨⟨by decide, by decide⟩, ?_⟩
  have h := reconcile_positional_overwrite_amended ["2026-10-11"]
    (fun _ => (1800 : Int)) [⟨"gen-a", 999, "ra"⟩] 0
    ⟨"gen-a", 999, "ra"⟩ "2026-10-11" (by decide) (by decide)
  exact h.trans (by decide)

/-- C10: both truthiness guards on zero calorie values hold. A
cheat-day override of exactly 0 is ignored by the derivation, whose
date receives the computed normal-day value instead of the literal 0;
and a derived per-day target of 0 is never written over the generated
daily calorie target during positional reconciliation, although that
day still receives the computed date. -/
theorem zero_calorie_truthiness_guards (weekLen : Nat)
    (cds : List CheatDay) (goal : Int) (d : String)
    (weekDates : List String) (effCal : String → Int)
    (days : List DayDoc) (i : Nat) (d0 : DayDoc) (ds : String) :
    (cheatLookup cds d = some 0 → cds ≠ [] →
      effectiveCalories weekLen cds goal d =
        normalDayCals weekLen cds goal) ∧
    (days.get? i = some d0 → weekDates.get? i = some ds →
      effCal ds = 0 →
      (postProcessDays weekDates effCal days).get? i =
        some { d0 with date := ds }) := by
  constructor
  · intro hz hne
    simp only [effectiveCalories, hz, jsOrElse]
    rw [if_neg (by simpa [List.isEmpty_iff] using hne)]
    simp
  · intro h1 h2 h0
    have h := postProcessFrom_get? weekDates effCal days 0 i d0 h1
    rw [Nat.zero_add] at h
    rw [postProcessDays, h]
    simp only [reconcileDay, h2]
    simp [h0]

/-- Witness for the C10 theorem: a zero override on a concrete date
and a zero derived value over a concrete day document. -/
theorem zero_calorie_truthiness_guards_witness :
    (cheatLookup [⟨"2026-10-11", 0⟩] "2026-10-11" = some 0 ∧
      ([⟨"2026-10-11", 0⟩] : List CheatDay) ≠ [] ∧
      ([⟨"gen-a", 999, "ra"⟩] : List DayDoc).get? 0 =
        some ⟨"gen-a", 999, "ra"⟩ ∧
      (["2026-10-11"] : List String).get? 0 = some "2026-10-11" ∧
      (fun _ => (0 : Int)) "2026-10-11" = (0 : Int)) ∧
    (effectiveCalories 7 [⟨"2026-10-11", 0⟩] 2000 "2026-10-11" =
        normalDayCals 7 [⟨"2026-10-11", 0⟩] 2000 ∧
      (postProcessDays ["2026-10-11"] (fun _ => (0 : Int))
          [⟨"gen-a", 999, "ra"⟩]).get? 0 =
        some ⟨"2026-10-11", 999, "ra"⟩) := by
  refine ⟨⟨by decide, by decide, by decide, by decide, by decide⟩, ?_, ?_⟩
  · exact (zero_calorie_truthiness_guards 7 [⟨"2026-10-11", 0⟩] 2000
      "2026-10-11" ["2026-10-11"] (fun _ => (0 : Int))
      [⟨"gen-a", 999, "ra"⟩] 0 ⟨"gen-a", 999, "ra"⟩ "2026-10-11").1
      (by decide) (by decide)
  · exact ((zero_calorie_truthiness_guards 7 [⟨"2026-10-11", 0⟩] 2000
      "2026-10-11" ["2026-10-11"] (fun _ => (0 : Int))
      [⟨"gen-a", 999, "ra"⟩] 0 ⟨"gen-a", 999, "ra"⟩ "2026-10-11").2
      (by decide) (by decide) (by decide)).trans (by decide)

/-- C1: the derivation does not always assign the literal override. A
cheat day whose override calories equal 0 is dropped by the JavaScript
truthiness guard, so that date receives the computed normal-day value
2333 instead of the literal 0. -/
theorem calorieMap_zero_override_counterexample :
    cheatLookup [⟨"2026-10-11", 0⟩] "2026-10-11" = some 0 ∧
    effectiveCalories 7 [⟨"2026-10-11", 0⟩] 2000 "2026-10-11" = 2333 ∧
    (2333 : Int) ≠ 0 := by
  refine ⟨by decide, by decide, by decide⟩

/-- C1 (amended): over a seven-date week, a date matching a cheat-day
entry with a nonzero override receives that literal override; a date
matching no entry receives the rounded normal-day value
`mathRound (7 * goal - total cheat calories) (7 - cheat count)` when at
least one normal day remains; with an empty cheat list, or with no
normal day remaining, the baseline goal is used directly. A zero
override is dropped by a truthiness guard and such a date receives the
normal-day value instead (see the counterexample). -/
theorem calorieMap_spec_amended (weekDates : List String)
    (cds : List CheatDay) (goal : Int) (d : String)
    (hd : d ∈ weekDates) (h7 : weekDates.length = 7) :
    (∀ c, cheatLookup cds d = some c → c ≠ 0 →
        effectiveCalories weekDates.length cds goal d = c) ∧
    (cds ≠ [] → cheatLookup cds d = none → (cds.length : Int) < 7 →
        effectiveCalories weekDates.length cds goal d =
          mathRound (7 * goal - (cds.map (fun cd => cd.calories)).sum)
            (7 - (cds.length : Int))) ∧
    (cds = [] → effectiveCalories weekDates.length cds goal d = goal) ∧
    (cds ≠ [] → (7 : Int) ≤ (cds.length : Int) →
        cheatLookup cds d = none →
        effectiveCalories weekDates.length cds goal d = goal) := by
  rw [h7]
  refine ⟨?_, ?_, ?_, ?_⟩
  · intro c hc hc0
    have hne : cds ≠ [] := by
      intro h
      subst h
      simp [cheatLookup] at hc
    simp [effectiveCalories, List.isEmpty_iff, hne, hc, jsOrElse, hc0]
  · intro hne hnone hlt
    simp only [effectiveCalories, hnone, jsOrElse, normalDayCals]
    rw [if_neg (by simpa [List.isEmpty_iff] using hne)]
    split
    · norm_cast
    · omega
  · intro h
    subst h
    simp [effectiveCalories]
  · intro hne hge hnone
    simp only [effectiveCalories, hnone, jsOrElse, normalDayCals]
    rw [if_neg (by simpa [List.isEmpty_iff] using hne)]
    split
    · exfalso
      omega
    · rfl

/-- Witness for the amended C1 theorem at the reference scenario:
baseline goal 2000 kcal and one cheat day at 3000 kcal over a concrete
seven-date week give the six normal days 1833 kcal each. -/
theorem calorieMap_spec_amended_witness :
    ("2026-10-11" ∈ ["2026-10-11", "2026-10-12", "2026-10-13",
        "2026-10-14", "2026-10-15", "2026-10-16", "2026-10-17"] ∧
      (["2026-10-11", "2026-10-12", "2026-10-13", "2026-10-14",
        "2026-10-15", "2026-10-16", "2026-10-17"] : List String).length = 7 ∧
      cheatLookup [⟨"2026-10-12", 3000⟩] "2026-10-11" = none ∧
      ([⟨"2026-10-12", 3000⟩] : List CheatDay) ≠ [] ∧
      (([⟨"2026-10-12", 3000⟩] : List CheatDay).length : Int) < 7) ∧
    effectiveCalories 7 [⟨"2026-10-12", 3000⟩] 2000 "2026-10-11" = 1833 := by
  refine ⟨⟨by decide, by decide, by decide, by decide, by decide⟩, ?_⟩
  have h := calorieMap_spec_amended
    ["2026-10-11", "2026-10-12", "2026-10-13", "2026-10-14",
      "2026-10-15", "2026-10-16", "2026-10-17"]
    [⟨"2026-10-12", 3000⟩] 2000 "2026-10-11" (by decide) (by decide)
  have h2 := h.2.1 (by decide) (by decide) (by decide)
  exact h2.trans (by decide)

end VpsWorker
